import Mathlib

/-!
Shallow embedding of the URI-authority parsing core of InkManager
(`chat/http/src/uri/{codec,ipv4,ipv6,authority}.rs` and
`chat/http/src/chars_sets.rs`, `chat/http/src/error.rs`).

Strings are modelled as `List Char`; bytes (`u8`) as `Nat` values below 256.
The Rust state machines consume states by value and produce new states; we
model them as pure step functions `State → Char → Except ErrorKind State`
folded over the character list, exactly as the Rust `try_fold` does.
-/

deriving instance DecidableEq for Except

namespace InkUri

/-- Mirrors `codec::Context` (error-reporting context tag). -/
inductive Context
| Fragment
| Host
| Ipv4Address
| Ipv6Address
| IpvFuture
| Path
| Query
| Scheme
| Userinfo
deriving DecidableEq

/-- Mirrors `std::num::ParseIntError`'s kinds reachable from `str::parse::<uN>`
for a non-negative decimal parse: empty input, a non-digit (or bad sign), or
positive overflow. -/
inductive ParseIntError
| Empty
| InvalidDigit
| PosOverflow
deriving DecidableEq

/-- Mirrors `error::ErrorKind` (variants relevant to the parsing core; the
string-carrying constructors `InvalidStatusCode`/`InvalidScheme`/
`InvalidAuthority`/`InvalidSchemeLength` are never produced by this core). -/
inductive ErrorKind
| InvalidPercentEncoding
| InvalidCharacter (ctx : Context)
| TooFewAddressParts
| TooManyAddressParts
| TruncatedHost
| InvalidDecimalOctet
| InvalidPortNumber (e : ParseIntError)
| TooManyDoubleColons
| TooManyDigits
deriving DecidableEq

/-- `chars_sets::ALPHA`. -/
def ALPHA (c : Char) : Bool :=
  ('a' ≤ c && c ≤ 'z') || ('A' ≤ c && c ≤ 'Z')

/-- `chars_sets::DIGIT`. -/
def DIGIT (c : Char) : Bool :=
  '0' ≤ c && c ≤ '9'

/-- `chars_sets::HEXDIG = DIGIT ∪ 'A'-'F' ∪ 'a'-'f'`. -/
def HEXDIG (c : Char) : Bool :=
  DIGIT c || ('A' ≤ c && c ≤ 'F') || ('a' ≤ c && c ≤ 'f')

/-- `chars_sets::SUB_DELIMS`. -/
def SUB_DELIMS (c : Char) : Bool :=
  c = '!' || c = '$' || c = '&' || c = '\'' || c = '(' || c = ')' ||
  c = '*' || c = '+' || c = ',' || c = ';' || c = '='

/-- `chars_sets::UNRESERVED = ALPHA ∪ DIGIT ∪ {-,.,_,~}`. -/
def UNRESERVED (c : Char) : Bool :=
  ALPHA c || DIGIT c || c = '-' || c = '.' || c = '_' || c = '~'

/-- `chars_sets::USER_INFO_NOT_PCT_ENCODED = UNRESERVED ∪ SUB_DELIMS ∪ {:}`. -/
def USER_INFO_NOT_PCT_ENCODED (c : Char) : Bool :=
  UNRESERVED c || SUB_DELIMS c || c = ':'

/-- `chars_sets::REG_NAME_NOT_PCT_ENCODED = UNRESERVED ∪ SUB_DELIMS`. -/
def REG_NAME_NOT_PCT_ENCODED (c : Char) : Bool :=
  UNRESERVED c || SUB_DELIMS c

/-- `chars_sets::IPV_FUTURE_LAST_PART = UNRESERVED ∪ SUB_DELIMS ∪ {:}`. -/
def IPV_FUTURE_LAST_PART (c : Char) : Bool :=
  UNRESERVED c || SUB_DELIMS c || c = ':'

/-- Rust `char::to_digit(10)`. -/
def decDigit (c : Char) : Option Nat :=
  if '0' ≤ c ∧ c ≤ '9' then some (c.toNat - 48) else none

/-- Rust `char::to_digit(16)`. -/
def hexVal (c : Char) : Option Nat :=
  if '0' ≤ c ∧ c ≤ '9' then some (c.toNat - 48)
  else if 'a' ≤ c ∧ c ≤ 'f' then some (c.toNat - 87)
  else if 'A' ≤ c ∧ c ≤ 'F' then some (c.toNat - 55)
  else none

/-- Digit-accumulation loop of Rust `from_str_radix` (radix 10, unsigned type
with maximum value `maxVal`): per character, a non-digit fails `InvalidDigit`;
a `checked_mul`/`checked_add` overflow past `maxVal` fails `PosOverflow`. -/
def parseDigitsLoop (maxVal : Nat) : List Char → Nat → Except ParseIntError Nat
| [], acc => .ok acc
| c :: rest, acc =>
  match decDigit c with
  | none => .error .InvalidDigit
  | some d =>
    if acc * 10 + d > maxVal then .error .PosOverflow
    else parseDigitsLoop maxVal rest (acc * 10 + d)

/-- Rust `str::parse::<uN>` (via `from_str_radix`, radix 10) for an unsigned
type with maximum value `maxVal`: empty fails `Empty`; a lone sign fails
`InvalidDigit`; a leading `-` on an unsigned type fails `InvalidDigit`; a
leading `+` is stripped. -/
def rustParseUnsigned (maxVal : Nat) (s : List Char) : Except ParseIntError Nat :=
  match s with
  | [] => .error .Empty
  | c :: rest =>
    if c = '+' then
      if rest = [] then .error .InvalidDigit else parseDigitsLoop maxVal rest 0
    else if c = '-' then .error .InvalidDigit
    else parseDigitsLoop maxVal s 0

/-- Boolean "is `.ok`" test on `Except`. -/
def exceptIsOk {ε α : Type} : Except ε α → Bool
| .ok _ => true
| .error _ => false

/-- `codec::PercentEncodedCharacterDecoder`: `decoded_character` is a `u8`
accumulator (kept below 256), `digits_left` counts the hex digits still
expected (2 then 1 in every reachable state). -/
structure PECD where
  decoded_character : Nat
  digits_left : Nat
deriving DecidableEq

/-- `PercentEncodedCharacterDecoder::new`. -/
def PECD.new : PECD := ⟨0, 2⟩

/-- `PercentEncodedCharacterDecoder::next`. The Rust method mutates `self` and
returns a `Result`; we return the pair (new state, result). The `u8` shift
`decoded_character <<= 4` is taken mod 256; on a non-hex digit the decoder is
reset and the call fails. -/
def PECD.next (st : PECD) (c : Char) : PECD × Except ErrorKind (Option Nat) :=
  let shifted := st.decoded_character * 16 % 256
  match hexVal c with
  | none => (PECD.new, .error .InvalidPercentEncoding)
  | some d =>
    if st.digits_left - 1 = 0 then (PECD.new, .ok (some (shifted + d)))
    else (⟨shifted + d, st.digits_left - 1⟩, .ok none)

/-- Character loop of `codec::decode_element` (the `filter_map` + `collect`
with its captured `decoding_pec` flag and decoder state, which stay mutable
across iterations; `collect` short-circuits on the first error). A character
in the allowed set is emitted as the Rust cast `c as u8`, i.e. its code point
mod 256. -/
def decodeLoop (allowed : Char → Bool) (ctx : Context) :
    List Char → Bool → PECD → Except ErrorKind (List Nat)
| [], _, _ => .ok []
| c :: rest, decoding_pec, dec =>
  if decoding_pec then
    match dec.next c with
    | (_, .error e) => .error e
    | (dec', .ok (some b)) => (decodeLoop allowed ctx rest false dec').map (b :: ·)
    | (dec', .ok none) => decodeLoop allowed ctx rest true dec'
  else if c = '%' then decodeLoop allowed ctx rest true dec
  else if allowed c then (decodeLoop allowed ctx rest false dec).map (c.toNat % 256 :: ·)
  else .error (.InvalidCharacter ctx)

/-- `codec::decode_element`. -/
def decode_element (element : List Char) (allowed : Char → Bool) (ctx : Context) :
    Except ErrorKind (List Nat) :=
  decodeLoop allowed ctx element false PECD.new

/-- Upper-case hex digit of a value below 16 (the `{:02X}` formatting). -/
def hexUpper (n : Nat) : Char :=
  if n < 10 then Char.ofNat (48 + n) else Char.ofNat (55 + n)

/-- `codec::encode_element`: each byte whose character form is in the allowed
set is emitted literally (`char::try_from(u8)` never fails); any other byte is
emitted as `%` plus two upper-case hex digits. -/
def encode_element : List Nat → (Char → Bool) → List Char
| [], _ => []
| b :: rest, allowed =>
  (if allowed (Char.ofNat b) then [Char.ofNat b]
   else ['%', hexUpper (b / 16), hexUpper (b % 16)]) ++ encode_element rest allowed

namespace Ipv4

/-- `ipv4::Shared`. The octet buffer is a character accumulator. -/
structure Shared where
  num_groups : Nat
  octet_buffer : List Char
deriving DecidableEq

/-- `ipv4::State`. -/
inductive State
| NotInOctet (sh : Shared)
| ExpectDigitOrDot (sh : Shared)
deriving DecidableEq

/-- `ipv4::State::next_not_in_octet`. -/
def next_not_in_octet (sh : Shared) (c : Char) : Except ErrorKind State :=
  if DIGIT c then .ok (.ExpectDigitOrDot {sh with octet_buffer := sh.octet_buffer ++ [c]})
  else .error (.InvalidCharacter .Ipv4Address)

/-- `ipv4::State::next_expect_digit_or_dot`. On `.` the group counter is
incremented and checked against 4 before the octet buffer is parsed as a
`u8`. -/
def next_expect_digit_or_dot (sh : Shared) (c : Char) : Except ErrorKind State :=
  if c = '.' then
    if sh.num_groups + 1 > 4 then .error .TooManyAddressParts
    else if exceptIsOk (rustParseUnsigned 255 sh.octet_buffer) = false then
      .error .InvalidDecimalOctet
    else .ok (.NotInOctet {num_groups := sh.num_groups + 1, octet_buffer := []})
  else if DIGIT c then .ok (.ExpectDigitOrDot {sh with octet_buffer := sh.octet_buffer ++ [c]})
  else .error (.InvalidCharacter .Ipv4Address)

/-- `ipv4::State::next`. -/
def State.next : State → Char → Except ErrorKind State
| .NotInOctet sh, c => next_not_in_octet sh c
| .ExpectDigitOrDot sh, c => next_expect_digit_or_dot sh c

/-- Final group-count check of `ipv4::State::finalize_expect_digit_or_dot`. -/
def finalCount (n : Nat) : Except ErrorKind Unit :=
  if n = 4 then .ok ()
  else if n < 4 then .error .TooFewAddressParts
  else .error .TooManyAddressParts

/-- `ipv4::State::finalize`: ending in `NotInOctet` is a truncated host;
otherwise a non-empty trailing octet is counted and parsed as a `u8`, then
the group count must be exactly 4. -/
def State.finalize : State → Except ErrorKind Unit
| .NotInOctet _ => .error .TruncatedHost
| .ExpectDigitOrDot sh =>
  if sh.octet_buffer = [] then finalCount sh.num_groups
  else if exceptIsOk (rustParseUnsigned 255 sh.octet_buffer) = false then
    .error .InvalidDecimalOctet
  else finalCount (sh.num_groups + 1)

/-- `ipv4::State::new`. -/
def State.new : State := .NotInOctet ⟨0, []⟩

/-- The `try_fold` of `validate_ipv4_address`. -/
def run4 : State → List Char → Except ErrorKind State
| st, [] => .ok st
| st, c :: rest =>
  match st.next c with
  | .error e => .error e
  | .ok st' => run4 st' rest

/-- `ipv4::validate_ipv4_address`. -/
def validate_ipv4_address (address : List Char) : Except ErrorKind Unit :=
  (run4 State.new address).bind State.finalize

end Ipv4

namespace Ipv6

/-- `ipv6::Shared`. `address` holds the whole input (stored by
`State::new`); `potential_ipv4_address_start` is the index where the current
group began. All characters consumed before that index are ASCII, so the
Rust byte index coincides with the character index used here. -/
structure Shared where
  address : List Char
  num_groups : Nat
  num_digits : Nat
  double_colon_encountered : Bool
  potential_ipv4_address_start : Nat
deriving DecidableEq

/-- `ipv6::State`. -/
inductive State
| NoGroupsYet (sh : Shared)
| ColonButNoGroupsYet (sh : Shared)
| AfterDoubleColon (sh : Shared)
| InGroupNotIpv4 (sh : Shared)
| InGroupCouldBeIpv4 (sh : Shared)
| InGroupIpv4 (sh : Shared)
| ColonAfterGroup (sh : Shared)
deriving DecidableEq

/-- The shared context of an `ipv6::State`. -/
def State.sh : State → Shared
| .NoGroupsYet sh | .ColonButNoGroupsYet sh | .AfterDoubleColon sh
| .InGroupNotIpv4 sh | .InGroupCouldBeIpv4 sh | .InGroupIpv4 sh
| .ColonAfterGroup sh => sh

/-- `ipv6::MachineExitStatus`: either a real error or the non-error
"IPv4 tail detected" control transfer. -/
inductive MachineExitStatus
| Error (e : ErrorKind)
| Ipv4Trailer (sh : Shared)
deriving DecidableEq

/-- `ipv6::State::next_no_groups_yet`. -/
def next_no_groups_yet (sh : Shared) (i : Nat) (c : Char) :
    Except MachineExitStatus State :=
  if c = ':' then .ok (.ColonButNoGroupsYet sh)
  else if DIGIT c then
    .ok (.InGroupCouldBeIpv4 {sh with potential_ipv4_address_start := i, num_digits := 1})
  else if HEXDIG c then .ok (.InGroupNotIpv4 {sh with num_digits := 1})
  else .error (.Error (.InvalidCharacter .Ipv6Address))

/-- `ipv6::State::next_colon_but_no_groups_yet`. -/
def next_colon_but_no_groups_yet (sh : Shared) (c : Char) :
    Except MachineExitStatus State :=
  if c = ':' then .ok (.AfterDoubleColon {sh with double_colon_encountered := true})
  else .error (.Error (.InvalidCharacter .Ipv6Address))

/-- `ipv6::State::next_after_double_colon`. The digit counter is incremented
before the character is classified. -/
def next_after_double_colon (sh : Shared) (i : Nat) (c : Char) :
    Except MachineExitStatus State :=
  let sh := {sh with num_digits := sh.num_digits + 1}
  if sh.num_digits > 4 then .error (.Error .TooManyDigits)
  else if DIGIT c then .ok (.InGroupCouldBeIpv4 {sh with potential_ipv4_address_start := i})
  else if HEXDIG c then .ok (.InGroupNotIpv4 sh)
  else .error (.Error (.InvalidCharacter .Ipv6Address))

/-- `ipv6::State::next_in_group_not_ipv4`. -/
def next_in_group_not_ipv4 (sh : Shared) (c : Char) :
    Except MachineExitStatus State :=
  if c = ':' then
    .ok (.ColonAfterGroup {sh with num_digits := 0, num_groups := sh.num_groups + 1})
  else if HEXDIG c then
    if sh.num_digits + 1 > 4 then .error (.Error .TooManyDigits)
    else .ok (.InGroupNotIpv4 {sh with num_digits := sh.num_digits + 1})
  else .error (.Error (.InvalidCharacter .Ipv6Address))

/-- `ipv6::State::next_in_group_could_be_ipv4`. A `.` triggers the non-error
`Ipv4Trailer` exit. -/
def next_in_group_could_be_ipv4 (sh : Shared) (c : Char) :
    Except MachineExitStatus State :=
  if c = ':' then
    .ok (.ColonAfterGroup {sh with num_digits := 0, num_groups := sh.num_groups + 1})
  else if c = '.' then .error (.Ipv4Trailer sh)
  else
    let sh := {sh with num_digits := sh.num_digits + 1}
    if sh.num_digits > 4 then .error (.Error .TooManyDigits)
    else if DIGIT c then .ok (.InGroupCouldBeIpv4 sh)
    else if HEXDIG c then .ok (.InGroupNotIpv4 sh)
    else .error (.Error (.InvalidCharacter .Ipv6Address))

/-- `ipv6::State::next_colon_after_group`. -/
def next_colon_after_group (sh : Shared) (i : Nat) (c : Char) :
    Except MachineExitStatus State :=
  if c = ':' then
    if sh.double_colon_encountered then .error (.Error .TooManyDoubleColons)
    else .ok (.AfterDoubleColon {sh with double_colon_encountered := true})
  else if DIGIT c then
    .ok (.InGroupCouldBeIpv4
      {sh with potential_ipv4_address_start := i, num_digits := sh.num_digits + 1})
  else if HEXDIG c then .ok (.InGroupNotIpv4 {sh with num_digits := sh.num_digits + 1})
  else .error (.Error (.InvalidCharacter .Ipv6Address))

/-- `ipv6::State::next`. -/
def State.next : State → Nat → Char → Except MachineExitStatus State
| .NoGroupsYet sh, i, c => next_no_groups_yet sh i c
| .ColonButNoGroupsYet sh, _, c => next_colon_but_no_groups_yet sh c
| .AfterDoubleColon sh, i, c => next_after_double_colon sh i c
| .InGroupNotIpv4 sh, _, c => next_in_group_not_ipv4 sh c
| .InGroupCouldBeIpv4 sh, _, c => next_in_group_could_be_ipv4 sh c
| .InGroupIpv4 sh, _, _ => .ok (.InGroupIpv4 sh)
| .ColonAfterGroup sh, i, c => next_colon_after_group sh i c

/-- Group-count acceptance check of `ipv6::State::finalize`. -/
def countCheck (dce : Bool) (n : Nat) : Except ErrorKind Unit :=
  if dce then
    if n ≤ 7 then .ok () else .error .TooManyAddressParts
  else if n = 8 then .ok ()
  else if n < 8 then .error .TooFewAddressParts
  else .error .TooManyAddressParts

/-- `ipv6::State::finalize`: a trailing in-progress group counts as one group;
an `InGroupIpv4` state first validates the tail (from
`potential_ipv4_address_start` to the end) as an IPv4 address and counts it as
two groups; ending right after a colon is a truncated host; otherwise the
group count decides acceptance. -/
def State.finalize : State → Except ErrorKind Unit
| .ColonButNoGroupsYet _ | .ColonAfterGroup _ => .error .TruncatedHost
| .NoGroupsYet sh | .AfterDoubleColon sh =>
  countCheck sh.double_colon_encountered sh.num_groups
| .InGroupNotIpv4 sh | .InGroupCouldBeIpv4 sh =>
  countCheck sh.double_colon_encountered (sh.num_groups + 1)
| .InGroupIpv4 sh =>
  match Ipv4.validate_ipv4_address (sh.address.drop sh.potential_ipv4_address_start) with
  | .error e => .error e
  | .ok _ => countCheck sh.double_colon_encountered (sh.num_groups + 2)

/-- `ipv6::State::new`. -/
def State.new (address : List Char) : State :=
  .NoGroupsYet ⟨address, 0, 0, false, 0⟩

/-- The `try_fold` over `char_indices` of `validate_ipv6_address`. -/
def run6 : State → Nat → List Char → Except MachineExitStatus State
| st, _, [] => .ok st
| st, i, c :: rest =>
  match st.next i c with
  | .error e => .error e
  | .ok st' => run6 st' (i + 1) rest

/-- The scan of `validate_ipv6_address` including its `or_else`: the
`Ipv4Trailer` exit becomes the `InGroupIpv4` state, a real error propagates. -/
def runMachine (address : List Char) : Except ErrorKind State :=
  match run6 (State.new address) 0 address with
  | .ok st => .ok st
  | .error (.Ipv4Trailer sh) => .ok (.InGroupIpv4 sh)
  | .error (.Error e) => .error e

/-- `ipv6::validate_ipv6_address`. -/
def validate_ipv6_address (address : List Char) : Except ErrorKind Unit :=
  (runMachine address).bind State.finalize

/-- The total group count in the sense of `State::finalize`: `num_groups`
plus 1 for a trailing in-progress group, plus 2 for an embedded IPv4 tail. -/
def totalGroups : State → Nat
| .InGroupNotIpv4 sh | .InGroupCouldBeIpv4 sh => sh.num_groups + 1
| .InGroupIpv4 sh => sh.num_groups + 2
| .NoGroupsYet sh | .ColonButNoGroupsYet sh | .AfterDoubleColon sh
| .ColonAfterGroup sh => sh.num_groups

/-- Whether the scan ended right after a (single or group-terminating) colon,
the states `State::finalize` maps to `TruncatedHost`. -/
def State.endsAfterColon : State → Bool
| .ColonButNoGroupsYet _ | .ColonAfterGroup _ => true
| _ => false

/-- Whether the embedded IPv4 tail (if the state records one) validates. -/
def State.embeddedTailOk : State → Bool
| .InGroupIpv4 sh =>
  exceptIsOk (Ipv4.validate_ipv4_address (sh.address.drop sh.potential_ipv4_address_start))
| _ => true

/-- Elision flag and total group count observed by a completed scan, `none`
when the scan itself errors. -/
def runStats (address : List Char) : Option (Bool × Nat) :=
  match runMachine address with
  | .ok st => some (st.sh.double_colon_encountered, totalGroups st)
  | .error _ => none

end Ipv6

namespace Auth

/-- `u8::make_ascii_lowercase` on one byte. -/
def asciiLower (b : Nat) : Nat :=
  if 65 ≤ b ∧ b ≤ 90 then b + 32 else b

/-- `authority::Shared`. -/
structure Shared where
  host : List Nat
  host_is_reg_name : Bool
  ipv6_address : List Char
  pec_decoder : PECD
  port_string : List Char
deriving DecidableEq

/-- `authority::State`. -/
inductive State
| NotIpLiteral (sh : Shared)
| PercentEncodedCharacter (sh : Shared)
| Ipv6Address (sh : Shared)
| IpvFutureNumber (sh : Shared)
| IpvFutureBody (sh : Shared)
| GarbageCheck (sh : Shared)
| Port (sh : Shared)
deriving DecidableEq

/-- The shared context of an `authority::State`. -/
def State.sh : State → Shared
| .NotIpLiteral sh | .PercentEncodedCharacter sh | .Ipv6Address sh
| .IpvFutureNumber sh | .IpvFutureBody sh | .GarbageCheck sh | .Port sh => sh

/-- The freshly-constructed `Shared` of `authority::State::new`. -/
def emptyShared : Shared := ⟨[], false, [], PECD.new, []⟩

/-- `authority::State::new`: a `"[v"` host-port string starts an IPvFuture
literal (the `v` is kept in the host), a `"["` starts an IPv6 literal, and
anything else is a registered name. The returned list is the remaining
input. -/
def State.new (hps : List Char) : State × List Char :=
  match hps with
  | c :: rest =>
    if c = '[' then
      match rest with
      | c2 :: rest2 =>
        if c2 = 'v' then
          (.IpvFutureNumber {emptyShared with host := ['v'.toNat]}, rest2)
        else (.Ipv6Address emptyShared, rest)
      | [] => (.Ipv6Address emptyShared, [])
    else (.NotIpLiteral {emptyShared with host_is_reg_name := true}, c :: rest)
  | [] => (.NotIpLiteral {emptyShared with host_is_reg_name := true}, [])

/-- `authority::State::next_not_ip_literal`. -/
def next_not_ip_literal (sh : Shared) (c : Char) : Except ErrorKind State :=
  if c = '%' then .ok (.PercentEncodedCharacter sh)
  else if c = ':' then .ok (.Port sh)
  else if REG_NAME_NOT_PCT_ENCODED c then
    .ok (.NotIpLiteral {sh with host := sh.host ++ [c.toNat]})
  else .error (.InvalidCharacter .Host)

/-- `authority::State::next_percent_encoded_character`. -/
def next_percent_encoded_character (sh : Shared) (c : Char) : Except ErrorKind State :=
  match sh.pec_decoder.next c with
  | (_, .error e) => .error e
  | (dec', .ok (some b)) =>
    .ok (.NotIpLiteral {sh with host := sh.host ++ [b], pec_decoder := dec'})
  | (dec', .ok none) => .ok (.PercentEncodedCharacter {sh with pec_decoder := dec'})

/-- `authority::State::next_ipv6_address`: on `]` the accumulated interior is
validated as an IPv6 address and becomes the host byte-for-byte (every
validated character is ASCII, so `u8::try_from(c as u32)` is the code
point). -/
def next_ipv6_address (sh : Shared) (c : Char) : Except ErrorKind State :=
  if c = ']' then
    match Ipv6.validate_ipv6_address sh.ipv6_address with
    | .error e => .error e
    | .ok _ =>
      .ok (.GarbageCheck {sh with host := sh.ipv6_address.map (fun a => a.toNat)})
  else .ok (.Ipv6Address {sh with ipv6_address := sh.ipv6_address ++ [c]})

/-- `authority::State::next_ipv_future_number`. -/
def next_ipv_future_number (sh : Shared) (c : Char) : Except ErrorKind State :=
  if c = '.' then .ok (.IpvFutureBody {sh with host := sh.host ++ ['.'.toNat]})
  else if c = ']' then .error .TruncatedHost
  else if HEXDIG c then .ok (.IpvFutureNumber {sh with host := sh.host ++ [c.toNat]})
  else .error (.InvalidCharacter .IpvFuture)

/-- `authority::State::next_ipv_future_body`. -/
def next_ipv_future_body (sh : Shared) (c : Char) : Except ErrorKind State :=
  if c = ']' then .ok (.GarbageCheck sh)
  else if IPV_FUTURE_LAST_PART c then
    .ok (.IpvFutureBody {sh with host := sh.host ++ [c.toNat]})
  else .error (.InvalidCharacter .IpvFuture)

/-- `authority::State::next_garbage_check`: after a closing `]` only a port
delimiter may follow. -/
def next_garbage_check (sh : Shared) (c : Char) : Except ErrorKind State :=
  if c = ':' then .ok (.Port sh)
  else .error (.InvalidCharacter .Host)

/-- `authority::State::next_port`: every character is accumulated, none is
validated. -/
def next_port (sh : Shared) (c : Char) : State :=
  .Port {sh with port_string := sh.port_string ++ [c]}

/-- `authority::State::next`. -/
def State.next : State → Char → Except ErrorKind State
| .NotIpLiteral sh, c => next_not_ip_literal sh c
| .PercentEncodedCharacter sh, c => next_percent_encoded_character sh c
| .Ipv6Address sh, c => next_ipv6_address sh c
| .IpvFutureNumber sh, c => next_ipv_future_number sh c
| .IpvFutureBody sh, c => next_ipv_future_body sh c
| .GarbageCheck sh, c => next_garbage_check sh c
| .Port sh, c => .ok (next_port sh c)

/-- `authority::State::finalize`: the mid-literal states are truncated hosts;
otherwise a registered-name host is ASCII-lowercased and the accumulated port
text, when non-empty, is parsed as a `u16` (`InvalidPortNumber` carries the
parse failure). -/
def State.finalize : State → Except ErrorKind (List Nat × Option Nat)
| .PercentEncodedCharacter _ | .Ipv6Address _ | .IpvFutureNumber _
| .IpvFutureBody _ => .error .TruncatedHost
| .NotIpLiteral sh | .GarbageCheck sh | .Port sh =>
  let host := if sh.host_is_reg_name then sh.host.map asciiLower else sh.host
  if sh.port_string = [] then .ok (host, none)
  else
    match rustParseUnsigned 65535 sh.port_string with
    | .ok p => .ok (host, some p)
    | .error e => .error (.InvalidPortNumber e)

/-- The `try_fold` of `parse_host_port`. -/
def runA : State → List Char → Except ErrorKind State
| st, [] => .ok st
| st, c :: rest =>
  match st.next c with
  | .error e => .error e
  | .ok st' => runA st' rest

/-- `authority::parse_host_port`. -/
def parse_host_port (hps : List Char) : Except ErrorKind (List Nat × Option Nat) :=
  (runA (State.new hps).1 (State.new hps).2).bind State.finalize

end Auth

/-- `authority::Authority`. -/
structure Authority where
  userinfo : Option (List Nat)
  host : List Nat
  port : Option Nat
deriving DecidableEq

/-- `str::find('@')` followed by the two slices of
`Authority::parse_userinfo`: the part before the first `@` (when one exists)
and the part after it. -/
def splitAtSign : List Char → Option (List Char × List Char)
| [] => none
| c :: rest =>
  if c = '@' then some ([], rest)
  else (splitAtSign rest).map (fun p => (c :: p.1, p.2))

/-- `Authority::parse` (composed with `Authority::parse_userinfo`): the part
before the first `@`, if any, is percent-decoded as userinfo; the rest is
parsed as host and port. -/
def Authority.parse (authority : List Char) : Except ErrorKind Authority :=
  match splitAtSign authority with
  | some (ui, hp) =>
    match decode_element ui USER_INFO_NOT_PCT_ENCODED .Userinfo with
    | .error e => .error e
    | .ok u =>
      match Auth.parse_host_port hp with
      | .error e => .error e
      | .ok (h, p) => .ok ⟨some u, h, p⟩
  | none =>
    match Auth.parse_host_port authority with
    | .error e => .error e
    | .ok (h, p) => .ok ⟨none, h, p⟩

/-- The allowed-character set containing only `%` (a legal `HashSet<char>`
argument to the codec). -/
def pctOnly : Char → Bool := fun c => c = '%'

/-! ## Theorems about the claims -/

/-- `char::from_u32` round-trip on byte values: the character of a code
point below 256 has that code point. -/
theorem charOfNat_toNat : ∀ x, x < 256 → (Char.ofNat x).toNat = x := by
  set_option maxRecDepth 2000 in decide

/-- `Except.map` composes. -/
theorem except_map_map {ε α β γ : Type} (f : α → β) (g : β → γ) (x : Except ε α) :
    (x.map f).map g = x.map (fun a => g (f a)) := by
  cases x <;> rfl

/-- Claim C10: `Authority::parse` accepts the empty string with no userinfo,
an empty host and no port, and accepts `":8080"` with an empty host and
port 8080. -/
theorem claim_C10 :
    Authority.parse ([] : List Char) = .ok ⟨none, [], none⟩ ∧
    Authority.parse (":8080".toList) = .ok ⟨none, [], some 8080⟩ := by
  decide

/-- Claim C4 fails as stated: `Authority::parse` treats `"1.2.3."` as a
registered name (digits and dots are unreserved) and succeeds, instead of
failing with `TruncatedHost`. -/
theorem claim_C4_counterexample :
    Authority.parse ("1.2.3.".toList) ≠ .error .TruncatedHost := by
  decide

/-- Claim C4 (amended): parsing `"1.2.3."` with `validate_ipv4_address`
fails with `TruncatedHost`, while `Authority::parse` — which never routes a
registered name through the IPv4 validator — accepts `"1.2.3."` as a
registered-name host with no port. -/
theorem claim_C4 :
    Ipv4.validate_ipv4_address ("1.2.3.".toList) = .error .TruncatedHost ∧
    Authority.parse ("1.2.3.".toList) =
      .ok ⟨none, ("1.2.3.".toList).map (fun c => c.toNat), none⟩ := by
  decide

/-- Claim C3 fails as stated: at the fifth dot of `"1.2.3.4.300."` the group
counter is checked first, so the reported error is `TooManyAddressParts`,
not `InvalidDecimalOctet`. -/
theorem claim_C3_counterexample :
    Ipv4.validate_ipv4_address ("1.2.3.4.300.".toList) = .error .TooManyAddressParts ∧
    ErrorKind.TooManyAddressParts ≠ ErrorKind.InvalidDecimalOctet := by
  decide

/-- Claim C3 (amended): in `validate_ipv4_address`, when a `.` arrives in
state `ExpectDigitOrDot` the group counter is incremented and checked against
the limit of 4 first (failing `TooManyAddressParts`), and only afterwards is
the octet buffer parsed as a `u8` (failing `InvalidDecimalOctet`); hence for
an input whose fifth dot closes an out-of-range octet, such as
`"1.2.3.4.300."`, the reported error is `TooManyAddressParts`. -/
theorem claim_C3 :
    (∀ sh : Ipv4.Shared, 4 ≤ sh.num_groups →
      Ipv4.next_expect_digit_or_dot sh '.' = .error .TooManyAddressParts) ∧
    (∀ sh : Ipv4.Shared, sh.num_groups < 4 →
      exceptIsOk (rustParseUnsigned 255 sh.octet_buffer) = false →
      Ipv4.next_expect_digit_or_dot sh '.' = .error .InvalidDecimalOctet) ∧
    Ipv4.validate_ipv4_address ("1.2.3.4.300.".toList) = .error .TooManyAddressParts := by
  refine ⟨?_, ?_, by decide⟩
  · intro sh hng
    have hgt : sh.num_groups + 1 > 4 := by omega
    simp [Ipv4.next_expect_digit_or_dot, hgt]
  · intro sh hng hbuf
    have hle : ¬(sh.num_groups + 1 > 4) := by omega
    simp [Ipv4.next_expect_digit_or_dot, hle, hbuf]

/-- Witness for claim C3 at the state reached just before the fifth dot of
`"1.2.3.4.300."`. -/
theorem claim_C3_witness :
    4 ≤ (⟨4, ("300".toList)⟩ : Ipv4.Shared).num_groups ∧
    Ipv4.next_expect_digit_or_dot ⟨4, ("300".toList)⟩ '.' = .error .TooManyAddressParts :=
  ⟨by decide, claim_C3.1 ⟨4, ("300".toList)⟩ (by decide)⟩

/-- Claim C8: `PercentEncodedCharacterDecoder::next` returns the decoded
byte and resets the accumulator when it consumes the second hex digit, resets
and fails with `InvalidPercentEncoding` on a non-hex digit, and therefore is
back in its initial state (0 digits consumed, value 0, i.e. 2 digits left)
after any call that returns a byte or an error. (`digits_left ∈ {1, 2}` in
every reachable decoder state.) -/
theorem claim_C8 :
    (∀ (st : PECD) (c : Char), hexVal c = none →
      PECD.next st c = (PECD.new, .error .InvalidPercentEncoding)) ∧
    (∀ (st : PECD) (c : Char), st.digits_left = 1 → (hexVal c).isSome = true →
      PECD.next st c =
        (PECD.new, .ok (some (st.decoded_character * 16 % 256 + (hexVal c).getD 0)))) ∧
    (∀ (st st' : PECD) (c : Char) (r : Except ErrorKind (Option Nat)),
      (st.digits_left = 1 ∨ st.digits_left = 2) → PECD.next st c = (st', r) →
      ((∃ b, r = .ok (some b)) ∨ (∃ e, r = .error e)) → st' = PECD.new) := by
  refine ⟨?_, ?_, ?_⟩
  · intro st c hc
    simp [PECD.next, hc]
  · intro st c hdl hc
    obtain ⟨v, hv⟩ := Option.isSome_iff_exists.mp hc
    simp [PECD.next, hv, hdl]
  · intro st st' c r hdl hnext hr
    cases hv : hexVal c with
    | none =>
      simp [PECD.next, hv] at hnext
      exact hnext.1.symm
    | some v =>
      rcases hdl with h1 | h2
      · simp [PECD.next, hv, h1] at hnext
        exact hnext.1.symm
      · simp [PECD.next, hv, h2] at hnext
        rcases hr with ⟨b, hb⟩ | ⟨e, he⟩
        · rw [← hnext.2] at hb
          exact absurd hb (by simp)
        · rw [← hnext.2] at he
          exact absurd he (by simp)

/-- Witness for claim C8: consuming the second hex digit `'1'` from the
state that already holds the value 4 yields the byte 65 and the reset
decoder. -/
theorem claim_C8_witness :
    (⟨4, 1⟩ : PECD).digits_left = 1 ∧ (hexVal '1').isSome = true ∧
    PECD.next ⟨4, 1⟩ '1' =
      (PECD.new, .ok (some ((⟨4, 1⟩ : PECD).decoded_character * 16 % 256 + (hexVal '1').getD 0))) :=
  ⟨rfl, by decide, claim_C8.2.1 ⟨4, 1⟩ '1' rfl (by decide)⟩

/-- Claim C7: after the port delimiter every character is accumulated
without validation; at finalize an empty accumulation yields no port and a
non-empty one is parsed as a `u16`, failing `InvalidPortNumber` with the
underlying numeric-parse error (never `InvalidCharacter`); in particular
`"example.com:99999"` fails with `InvalidPortNumber(PosOverflow)`. -/
theorem claim_C7 :
    (∀ (sh : Auth.Shared) (c : Char),
      Auth.State.next (.Port sh) c = .ok (.Port {sh with port_string := sh.port_string ++ [c]})) ∧
    (∀ sh : Auth.Shared, sh.port_string = [] →
      Auth.State.finalize (.Port sh) =
        .ok ((if sh.host_is_reg_name then sh.host.map Auth.asciiLower else sh.host), none)) ∧
    (∀ sh : Auth.Shared, sh.port_string ≠ [] →
      Auth.State.finalize (.Port sh) =
        (match rustParseUnsigned 65535 sh.port_string with
         | .ok p => .ok ((if sh.host_is_reg_name then sh.host.map Auth.asciiLower else sh.host), some p)
         | .error e => .error (.InvalidPortNumber e))) ∧
    (∀ (sh : Auth.Shared) (ctx : Context),
      Auth.State.finalize (.Port sh) ≠ .error (.InvalidCharacter ctx)) ∧
    Authority.parse ("example.com:99999".toList) = .error (.InvalidPortNumber .PosOverflow) := by
  refine ⟨fun sh c => rfl, ?_, ?_, ?_, by decide⟩
  · intro sh hemp
    simp [Auth.State.finalize, hemp]
  · intro sh hne
    simp only [Auth.State.finalize]
    rw [if_neg hne]
  · intro sh ctx h
    simp only [Auth.State.finalize] at h
    split at h
    · simp at h
    · split at h
      · simp at h
      · simp at h

/-- Witness for claim C7 at the accumulated port text `"99999"`. -/
theorem claim_C7_witness :
    ("99999".toList ≠ ([] : List Char)) ∧
    Auth.State.finalize (.Port ⟨[], false, [], PECD.new, ("99999".toList)⟩) =
      .error (.InvalidPortNumber .PosOverflow) := by
  refine ⟨by decide, ?_⟩
  rw [claim_C7.2.2.1 ⟨[], false, [], PECD.new, ("99999".toList)⟩ (by decide)]
  decide

/-- Behaviour of the final group-count check of the IPv6 validator. -/
theorem countCheck_spec (dce : Bool) (n : Nat) :
    (Ipv6.countCheck dce n = .ok () ↔ ((dce = true ∧ n ≤ 7) ∨ (dce = false ∧ n = 8))) ∧
    (dce = false → n < 8 → Ipv6.countCheck dce n = .error .TooFewAddressParts) ∧
    (dce = true → 7 < n → Ipv6.countCheck dce n = .error .TooManyAddressParts) ∧
    (dce = false → 8 < n → Ipv6.countCheck dce n = .error .TooManyAddressParts) := by
  cases dce <;> simp only [Ipv6.countCheck] <;> split_ifs <;> simp_all <;> omega

/-- Claim C1 fails as stated: the input `"1:2:3:4:5:6:7:8:"` completes the
scan with no double colon and a total group count of exactly 8 (no trailing
in-progress group), yet `validate_ipv6_address` rejects it with
`TruncatedHost` because the scan ends right after a colon. -/
theorem claim_C1_counterexample :
    Ipv6.runStats ("1:2:3:4:5:6:7:8:".toList) = some (false, 8) ∧
    Ipv6.validate_ipv6_address ("1:2:3:4:5:6:7:8:".toList) = .error .TruncatedHost := by
  decide

/-- Claim C1 (amended): for every input whose scan completes without a
mid-scan error and does not end right after a colon, and whose embedded IPv4
tail (when one was detected) validates, `validate_ipv6_address` accepts iff
the total group count — a trailing in-progress group counting as 1 and the
IPv4 tail as 2 — is at most 7 when a double colon was encountered or exactly
8 when not; with no double colon a count below 8 fails
`TooFewAddressParts`, and every other count mismatch fails
`TooManyAddressParts`. -/
theorem claim_C1 (address : List Char) (st : Ipv6.State)
    (hrun : Ipv6.runMachine address = .ok st)
    (hcolon : st.endsAfterColon = false)
    (htail : st.embeddedTailOk = true) :
    (Ipv6.validate_ipv6_address address = .ok () ↔
      ((st.sh.double_colon_encountered = true ∧ Ipv6.totalGroups st ≤ 7) ∨
       (st.sh.double_colon_encountered = false ∧ Ipv6.totalGroups st = 8))) ∧
    (st.sh.double_colon_encountered = false → Ipv6.totalGroups st < 8 →
      Ipv6.validate_ipv6_address address = .error .TooFewAddressParts) ∧
    (st.sh.double_colon_encountered = true → 7 < Ipv6.totalGroups st →
      Ipv6.validate_ipv6_address address = .error .TooManyAddressParts) ∧
    (st.sh.double_colon_encountered = false → 8 < Ipv6.totalGroups st →
      Ipv6.validate_ipv6_address address = .error .TooManyAddressParts) := by
  have hval : Ipv6.validate_ipv6_address address = st.finalize := by
    unfold Ipv6.validate_ipv6_address
    rw [hrun]
    rfl
  rw [hval]
  cases st with
  | ColonButNoGroupsYet sh => exact absurd hcolon (by simp [Ipv6.State.endsAfterColon])
  | ColonAfterGroup sh => exact absurd hcolon (by simp [Ipv6.State.endsAfterColon])
  | NoGroupsYet sh =>
    exact countCheck_spec sh.double_colon_encountered sh.num_groups
  | AfterDoubleColon sh =>
    exact countCheck_spec sh.double_colon_encountered sh.num_groups
  | InGroupNotIpv4 sh =>
    exact countCheck_spec sh.double_colon_encountered (sh.num_groups + 1)
  | InGroupCouldBeIpv4 sh =>
    exact countCheck_spec sh.double_colon_encountered (sh.num_groups + 1)
  | InGroupIpv4 sh =>
    have hfin : Ipv6.State.finalize (.InGroupIpv4 sh) =
        Ipv6.countCheck sh.double_colon_encountered (sh.num_groups + 2) := by
      simp only [Ipv6.State.finalize]
      cases h4 : Ipv4.validate_ipv4_address (sh.address.drop sh.potential_ipv4_address_start) with
      | ok u => rfl
      | error e =>
        exact absurd htail (by simp [Ipv6.State.embeddedTailOk, h4, exceptIsOk])
    rw [hfin]
    exact countCheck_spec sh.double_colon_encountered (sh.num_groups + 2)

/-- Witness for claim C1: `"1:2:3:4:5:6:7:8"` completes the scan in a
trailing in-progress group with 7 closed groups and no double colon, so the
total count is 8 and the address is accepted. -/
theorem claim_C1_witness :
    Ipv6.runMachine ("1:2:3:4:5:6:7:8".toList) =
      .ok (.InGroupCouldBeIpv4 ⟨("1:2:3:4:5:6:7:8".toList), 7, 1, false, 14⟩) ∧
    (Ipv6.State.InGroupCouldBeIpv4
      ⟨("1:2:3:4:5:6:7:8".toList), 7, 1, false, 14⟩).endsAfterColon = false ∧
    Ipv6.validate_ipv6_address ("1:2:3:4:5:6:7:8".toList) = .ok () := by
  refine ⟨by decide, by decide, ?_⟩
  exact (claim_C1 ("1:2:3:4:5:6:7:8".toList)
    (.InGroupCouldBeIpv4 ⟨("1:2:3:4:5:6:7:8".toList), 7, 1, false, 14⟩)
    (by decide) (by decide) (by decide)).1.mpr (Or.inr ⟨rfl, by decide⟩)

/-- Decoding the encoding of a byte sequence whose characters are all in the
allowed set, for a set without `%`: the decode loop returns the bytes for any
starting decoder state (the decoder state is never consulted outside escape
mode). -/
theorem decode_encode_aux (S : Char → Bool) (ctx : Context) (b : List Nat)
    (hpct : S '%' = false) (hb : ∀ x ∈ b, x < 256 ∧ S (Char.ofNat x) = true) :
    ∀ dec : PECD, decodeLoop S ctx (encode_element b S) false dec = .ok b := by
  induction b with
  | nil => intro dec; rfl
  | cons x rest ih =>
    intro dec
    obtain ⟨hx, hsx⟩ := hb x (by simp)
    have hne : Char.ofNat x ≠ '%' := by
      intro h
      rw [h, hpct] at hsx
      exact absurd hsx (by simp)
    simp only [encode_element, hsx, if_true, List.singleton_append]
    simp only [decodeLoop, if_neg hne, hsx, if_true, if_false]
    rw [ih (fun y hy => hb y (by simp [hy])) dec]
    simp [Except.map, charOfNat_toNat x hx, Nat.mod_eq_of_lt hx]

/-- Claim C5 fails as stated: with the allowed set `{%}` and the byte
sequence `[37]` (the byte of `%`, whose character form is in the set),
encoding emits the literal `%`, which decoding then treats as the start of a
percent escape and silently drops, returning `[]` instead of `[37]`. -/
theorem claim_C5_counterexample :
    pctOnly (Char.ofNat 37) = true ∧ (37 : Nat) < 256 ∧
    decode_element (encode_element [37] pctOnly) pctOnly .Userinfo = .ok [] ∧
    (Except.ok [] : Except ErrorKind (List Nat)) ≠ .ok [37] := by
  decide

/-- Claim C5 (amended): for every allowed-character set S that does not
contain `%` and every byte sequence all of whose bytes correspond to
characters in S, `decode_element (encode_element b S) S ctx` returns
`Ok(b)`. -/
theorem claim_C5 (S : Char → Bool) (ctx : Context) (b : List Nat)
    (hpct : S '%' = false) (hb : ∀ x ∈ b, x < 256 ∧ S (Char.ofNat x) = true) :
    decode_element (encode_element b S) S ctx = .ok b :=
  decode_encode_aux S ctx b hpct hb PECD.new

/-- Witness for claim C5 at the userinfo set and the bytes of `"user"`. -/
theorem claim_C5_witness :
    USER_INFO_NOT_PCT_ENCODED '%' = false ∧
    (∀ x ∈ [117, 115, 101, 114], x < 256 ∧ USER_INFO_NOT_PCT_ENCODED (Char.ofNat x) = true) ∧
    decode_element (encode_element [117, 115, 101, 114] USER_INFO_NOT_PCT_ENCODED)
      USER_INFO_NOT_PCT_ENCODED .Userinfo = .ok [117, 115, 101, 114] :=
  ⟨by decide, by decide,
   claim_C5 USER_INFO_NOT_PCT_ENCODED .Userinfo [117, 115, 101, 114] (by decide) (by decide)⟩

/-- A prefix of characters in the allowed set (none of them `%`) passes
through the decode loop unchanged, leaving the decoder state untouched. -/
theorem decode_leading (S : Char → Bool) (ctx : Context) (l : List Char)
    (hl : ∀ c ∈ l, S c = true ∧ c ≠ '%') :
    ∀ (tailcs : List Char) (dec : PECD),
      decodeLoop S ctx (l ++ tailcs) false dec =
        (decodeLoop S ctx tailcs false dec).map
          (fun r => l.map (fun c => c.toNat % 256) ++ r) := by
  induction l with
  | nil =>
    intro tailcs dec
    cases h : decodeLoop S ctx tailcs false dec <;> simp [h, Except.map]
  | cons c rest ih =>
    intro tailcs dec
    obtain ⟨hsc, hne⟩ := hl c (by simp)
    rw [List.cons_append]
    rw [show decodeLoop S ctx (c :: (rest ++ tailcs)) false dec =
          (decodeLoop S ctx (rest ++ tailcs) false dec).map (fun x => c.toNat % 256 :: x) from
        by simp [decodeLoop, hsc, hne]]
    rw [ih (fun y hy => hl y (by simp [hy])) tailcs dec, except_map_map]
    cases h : decodeLoop S ctx tailcs false dec <;> simp [h, Except.map]

/-- Claim C9: an input ending in an incomplete percent escape — `%` followed
by zero or one hex digits at end of input, every other character in the
allowed set — decodes successfully, the incomplete escape silently
discarded; in particular `decode_element("user%4")` yields the bytes of
`"user"` and `Authority::parse("user%4@example.com")` succeeds with
userinfo `"user"`. -/
theorem claim_C9 :
    (∀ (S : Char → Bool) (ctx : Context) (l : List Char),
      (∀ c ∈ l, S c = true ∧ c ≠ '%') →
      decode_element (l ++ ['%']) S ctx = .ok (l.map (fun c => c.toNat % 256))) ∧
    (∀ (S : Char → Bool) (ctx : Context) (l : List Char) (d : Char),
      (∀ c ∈ l, S c = true ∧ c ≠ '%') → (hexVal d).isSome = true →
      decode_element (l ++ ['%', d]) S ctx = .ok (l.map (fun c => c.toNat % 256))) ∧
    decode_element ("user%4".toList) USER_INFO_NOT_PCT_ENCODED .Userinfo =
      .ok (("user".toList).map (fun c => c.toNat)) ∧
    Authority.parse ("user%4@example.com".toList) =
      .ok ⟨some (("user".toList).map (fun c => c.toNat)),
           ("example.com".toList).map (fun c => c.toNat), none⟩ := by
  refine ⟨?_, ?_, by decide, by decide⟩
  · intro S ctx l hl
    unfold decode_element
    rw [decode_leading S ctx l hl ['%'] PECD.new]
    simp [decodeLoop, Except.map]
  · intro S ctx l d hl hd
    obtain ⟨v, hv⟩ := Option.isSome_iff_exists.mp hd
    unfold decode_element
    rw [decode_leading S ctx l hl ['%', d] PECD.new]
    simp [decodeLoop, PECD.next, hv, PECD.new, Except.map]

/-- Witness for claim C9 at the input `"user%4"`. -/
theorem claim_C9_witness :
    (∀ c ∈ ("user".toList), USER_INFO_NOT_PCT_ENCODED c = true ∧ c ≠ '%') ∧
    (hexVal '4').isSome = true ∧
    decode_element (("user".toList) ++ ['%', '4']) USER_INFO_NOT_PCT_ENCODED .Userinfo =
      .ok (("user".toList).map (fun c => c.toNat % 256)) :=
  ⟨by decide, by decide,
   claim_C9.2.1 USER_INFO_NOT_PCT_ENCODED .Userinfo ("user".toList) '4' (by decide) (by decide)⟩

/-- One accepted step of the authority scan. -/
theorem runA_cons_ok {st st' : Auth.State} {c : Char}
    (h : Auth.State.next st c = .ok st') (rest : List Char) :
    Auth.runA st (c :: rest) = Auth.runA st' rest := by
  simp [Auth.runA, h]

/-- One rejected step of the authority scan. -/
theorem runA_cons_err {st : Auth.State} {c : Char} {e : ErrorKind}
    (h : Auth.State.next st c = .error e) (rest : List Char) :
    Auth.runA st (c :: rest) = .error e := by
  simp [Auth.runA, h]

/-- Scanning an IPvFuture body of allowed characters followed by `]` ends in
the garbage check with the body appended verbatim to the host. -/
theorem runA_future_body (body : List Char) : ∀ sh : Auth.Shared,
    (∀ c ∈ body, IPV_FUTURE_LAST_PART c = true) →
    Auth.runA (.IpvFutureBody sh) (body ++ [']']) =
      .ok (.GarbageCheck {sh with host := sh.host ++ body.map (fun c => c.toNat)}) := by
  induction body with
  | nil =>
    intro sh _
    have hstep : Auth.State.next (.IpvFutureBody sh) ']' = .ok (.GarbageCheck sh) := by
      simp [Auth.State.next, Auth.next_ipv_future_body]
    rw [List.nil_append, runA_cons_ok hstep []]
    simp [Auth.runA]
  | cons c rest ih =>
    intro sh hb
    have hc : IPV_FUTURE_LAST_PART c = true := hb c (by simp)
    have hne : c ≠ ']' := by
      intro h
      subst h
      exact absurd hc (by decide)
    have hstep : Auth.State.next (.IpvFutureBody sh) c =
        .ok (.IpvFutureBody {sh with host := sh.host ++ [c.toNat]}) := by
      simp [Auth.State.next, Auth.next_ipv_future_body, hne, hc]
    rw [List.cons_append, runA_cons_ok hstep, ih _ (fun y hy => hb y (by simp [hy]))]
    simp

/-- Scanning IPvFuture hex digits, then `.`, an allowed body and `]` ends in
the garbage check with everything appended verbatim to the host. -/
theorem runA_future_number (ds : List Char) (body : List Char) : ∀ sh : Auth.Shared,
    (∀ c ∈ ds, HEXDIG c = true) → (∀ c ∈ body, IPV_FUTURE_LAST_PART c = true) →
    Auth.runA (.IpvFutureNumber sh) (ds ++ ('.' :: (body ++ [']']))) =
      .ok (.GarbageCheck
        {sh with host :=
          sh.host ++ (ds.map (fun c => c.toNat) ++ ('.'.toNat :: body.map (fun c => c.toNat)))}) := by
  induction ds with
  | nil =>
    intro sh _ hb
    have hstep : Auth.State.next (.IpvFutureNumber sh) '.' =
        .ok (.IpvFutureBody {sh with host := sh.host ++ ['.'.toNat]}) := by
      simp [Auth.State.next, Auth.next_ipv_future_number]
    rw [List.nil_append, runA_cons_ok hstep, runA_future_body body _ hb]
    simp
  | cons c rest ih =>
    intro sh hd hb
    have hc : HEXDIG c = true := hd c (by simp)
    have hdot : c ≠ '.' := by
      intro h
      subst h
      exact absurd hc (by decide)
    have hbr : c ≠ ']' := by
      intro h
      subst h
      exact absurd hc (by decide)
    have hstep : Auth.State.next (.IpvFutureNumber sh) c =
        .ok (.IpvFutureNumber {sh with host := sh.host ++ [c.toNat]}) := by
      simp [Auth.State.next, Auth.next_ipv_future_number, hdot, hbr, hc]
    rw [List.cons_append, runA_cons_ok hstep, ih _ (fun y hy => hd y (by simp [hy])) hb]
    simp

/-- Claim C2 fails as stated: `"[v.]"` (no hex digit before the dot) and
`"[v1.]"` (empty body after the dot) are both accepted by the parser. -/
theorem claim_C2_counterexample :
    Authority.parse ("[v.]".toList) = .ok ⟨none, ['v'.toNat, '.'.toNat], none⟩ ∧
    Authority.parse ("[v1.]".toList) = .ok ⟨none, ['v'.toNat, '1'.toNat, '.'.toNat], none⟩ := by
  decide

/-- Claim C2 (amended): for a host-port part beginning with `"[v"` the
parser accepts any run of zero or more hex digits, then `.`, then zero or
more characters from `IPVFUTURE_LAST_PART`, then `]` — no minimum of one is
enforced on either side, so `"[v.]"` and `"[v1.]"` are accepted; only a `]`
arriving before the `.` (as in `"[v]"`) or input ending inside the literal
(as in `"[v1"`) fails, with `TruncatedHost`. -/
theorem claim_C2 :
    (∀ ds body : List Char,
      (∀ c ∈ ds, HEXDIG c = true) → (∀ c ∈ body, IPV_FUTURE_LAST_PART c = true) →
      Auth.parse_host_port ('[' :: 'v' :: (ds ++ ('.' :: (body ++ [']'])))) =
        .ok (('v' :: (ds ++ ('.' :: body))).map (fun c => c.toNat), none)) ∧
    Authority.parse ("[v.]".toList) = .ok ⟨none, ['v'.toNat, '.'.toNat], none⟩ ∧
    Authority.parse ("[v1.]".toList) = .ok ⟨none, ['v'.toNat, '1'.toNat, '.'.toNat], none⟩ ∧
    Auth.parse_host_port ("[v]".toList) = .error .TruncatedHost ∧
    Auth.parse_host_port ("[v1".toList) = .error .TruncatedHost := by
  refine ⟨?_, by decide, by decide, by decide, by decide⟩
  intro ds body hd hb
  have hnew : Auth.State.new ('[' :: 'v' :: (ds ++ ('.' :: (body ++ [']'])))) =
      (.IpvFutureNumber {Auth.emptyShared with host := ['v'.toNat]},
       ds ++ ('.' :: (body ++ [']']))) := by
    simp [Auth.State.new]
  unfold Auth.parse_host_port
  rw [hnew]
  rw [runA_future_number ds body _ hd hb]
  simp [Except.bind, Auth.State.finalize, Auth.emptyShared]

/-- Witness for claim C2 at `"[v1.abc]"`. -/
theorem claim_C2_witness :
    (∀ c ∈ ['1'], HEXDIG c = true) ∧
    (∀ c ∈ ['a', 'b', 'c'], IPV_FUTURE_LAST_PART c = true) ∧
    Auth.parse_host_port ('[' :: 'v' :: (['1'] ++ ('.' :: (['a', 'b', 'c'] ++ [']'])))) =
      .ok (('v' :: (['1'] ++ ('.' :: ['a', 'b', 'c']))).map (fun c => c.toNat), none) :=
  ⟨by decide, by decide, claim_C2.1 ['1'] ['a', 'b', 'c'] (by decide) (by decide)⟩

/-- `make_ascii_lowercase` never produces an ASCII upper-case byte. -/
theorem asciiLower_noUpper (b : Nat) : ¬(65 ≤ Auth.asciiLower b ∧ Auth.asciiLower b ≤ 90) := by
  unfold Auth.asciiLower
  split_ifs with h
  · omega
  · omega

/-- When the authority machine finalizes successfully from a state whose
host is not a registered name, the returned host bytes are exactly the
accumulated host bytes. -/
theorem finalize_pres_host (st : Auth.State) (h : List Nat) (p : Option Nat)
    (hreg : st.sh.host_is_reg_name = false)
    (hfin : Auth.State.finalize st = .ok (h, p)) : h = st.sh.host := by
  cases st <;> simp only [Auth.State.sh] at hreg ⊢ <;>
    simp only [Auth.State.finalize, hreg, Bool.false_eq_true, if_false] at hfin <;>
    try exact absurd hfin (by simp)
  all_goals
    split at hfin
    · simp only [Except.ok.injEq, Prod.mk.injEq] at hfin
      exact hfin.1.symm
    · split at hfin
      · simp only [Except.ok.injEq, Prod.mk.injEq] at hfin
        exact hfin.1.symm
      · exact absurd hfin (by simp)

/-- From the `Port` state the host bytes never change. -/
theorem runA_port_host (cs : List Char) : ∀ (sh : Auth.Shared) (st' : Auth.State)
    (h : List Nat) (p : Option Nat), sh.host_is_reg_name = false →
    Auth.runA (.Port sh) cs = .ok st' → Auth.State.finalize st' = .ok (h, p) →
    h = sh.host := by
  induction cs with
  | nil =>
    intro sh st' h p hreg hr hfin
    simp only [Auth.runA, Except.ok.injEq] at hr
    subst hr
    exact finalize_pres_host (.Port sh) h p hreg hfin
  | cons c rest ih =>
    intro sh st' h p hreg hr hfin
    have hstep : Auth.State.next (.Port sh) c =
        .ok (.Port {sh with port_string := sh.port_string ++ [c]}) := rfl
    rw [runA_cons_ok hstep] at hr
    exact ih {sh with port_string := sh.port_string ++ [c]} st' h p hreg hr hfin

/-- From the garbage-check state the host bytes never change. -/
theorem runA_garbage_host (cs : List Char) : ∀ (sh : Auth.Shared) (st' : Auth.State)
    (h : List Nat) (p : Option Nat), sh.host_is_reg_name = false →
    Auth.runA (.GarbageCheck sh) cs = .ok st' → Auth.State.finalize st' = .ok (h, p) →
    h = sh.host := by
  cases cs with
  | nil =>
    intro sh st' h p hreg hr hfin
    simp only [Auth.runA, Except.ok.injEq] at hr
    subst hr
    exact finalize_pres_host (.GarbageCheck sh) h p hreg hfin
  | cons c rest =>
    intro sh st' h p hreg hr hfin
    by_cases hc : c = ':'
    · subst hc
      have hstep : Auth.State.next (.GarbageCheck sh) ':' = .ok (.Port sh) := by
        simp [Auth.State.next, Auth.next_garbage_check]
      rw [runA_cons_ok hstep] at hr
      exact runA_port_host rest sh st' h p hreg hr hfin
    · have hstep : Auth.State.next (.GarbageCheck sh) c =
          .error (.InvalidCharacter .Host) := by
        simp [Auth.State.next, Auth.next_garbage_check, hc]
      rw [runA_cons_err hstep] at hr
      exact absurd hr (by simp)

/-- From the IPv6-literal state, a successful parse returns as host exactly
the characters before the first `]`, byte-for-byte. -/
theorem runA_ipv6_host (cs : List Char) : ∀ (sh : Auth.Shared) (st' : Auth.State)
    (h : List Nat) (p : Option Nat), sh.host_is_reg_name = false →
    Auth.runA (.Ipv6Address sh) cs = .ok st' → Auth.State.finalize st' = .ok (h, p) →
    h = (sh.ipv6_address ++ cs.takeWhile (fun c => c != ']')).map (fun c => c.toNat) := by
  induction cs with
  | nil =>
    intro sh st' h p hreg hr hfin
    simp only [Auth.runA, Except.ok.injEq] at hr
    subst hr
    exact absurd hfin (by simp [Auth.State.finalize])
  | cons c rest ih =>
    intro sh st' h p hreg hr hfin
    by_cases hc : c = ']'
    · subst hc
      cases hval : Ipv6.validate_ipv6_address sh.ipv6_address with
      | error e =>
        have hstep : Auth.State.next (.Ipv6Address sh) ']' = .error e := by
          simp [Auth.State.next, Auth.next_ipv6_address, hval]
        rw [runA_cons_err hstep] at hr
        exact absurd hr (by simp)
      | ok u =>
        have hstep : Auth.State.next (.Ipv6Address sh) ']' =
            .ok (.GarbageCheck {sh with host := sh.ipv6_address.map (fun a => a.toNat)}) := by
          simp [Auth.State.next, Auth.next_ipv6_address, hval]
        rw [runA_cons_ok hstep] at hr
        have hh := runA_garbage_host rest
          {sh with host := sh.ipv6_address.map (fun a => a.toNat)} st' h p hreg hr hfin
        simpa [List.takeWhile_cons] using hh
    · have hstep : Auth.State.next (.Ipv6Address sh) c =
          .ok (.Ipv6Address {sh with ipv6_address := sh.ipv6_address ++ [c]}) := by
        simp [Auth.State.next, Auth.next_ipv6_address, hc]
      rw [runA_cons_ok hstep] at hr
      have hh := ih {sh with ipv6_address := sh.ipv6_address ++ [c]} st' h p hreg hr hfin
      have hb : (c != ']') = true := by simpa using hc
      rw [hh]
      simp [List.takeWhile_cons, hb]

/-- From the IPvFuture-body state, a successful parse appends to the host
exactly the characters before the first `]`. -/
theorem runA_fbody_host (cs : List Char) : ∀ (sh : Auth.Shared) (st' : Auth.State)
    (h : List Nat) (p : Option Nat), sh.host_is_reg_name = false →
    Auth.runA (.IpvFutureBody sh) cs = .ok st' → Auth.State.finalize st' = .ok (h, p) →
    h = sh.host ++ (cs.takeWhile (fun c => c != ']')).map (fun c => c.toNat) := by
  induction cs with
  | nil =>
    intro sh st' h p hreg hr hfin
    simp only [Auth.runA, Except.ok.injEq] at hr
    subst hr
    exact absurd hfin (by simp [Auth.State.finalize])
  | cons c rest ih =>
    intro sh st' h p hreg hr hfin
    by_cases hc : c = ']'
    · subst hc
      have hstep : Auth.State.next (.IpvFutureBody sh) ']' = .ok (.GarbageCheck sh) := by
        simp [Auth.State.next, Auth.next_ipv_future_body]
      rw [runA_cons_ok hstep] at hr
      have hh := runA_garbage_host rest sh st' h p hreg hr hfin
      simpa [List.takeWhile_cons] using hh
    · by_cases hip : IPV_FUTURE_LAST_PART c = true
      · have hstep : Auth.State.next (.IpvFutureBody sh) c =
            .ok (.IpvFutureBody {sh with host := sh.host ++ [c.toNat]}) := by
          simp [Auth.State.next, Auth.next_ipv_future_body, hc, hip]
        rw [runA_cons_ok hstep] at hr
        have hh := ih {sh with host := sh.host ++ [c.toNat]} st' h p hreg hr hfin
        have hb : (c != ']') = true := by simpa using hc
        rw [hh]
        simp [List.takeWhile_cons, hb]
      · have hstep : Auth.State.next (.IpvFutureBody sh) c =
            .error (.InvalidCharacter .IpvFuture) := by
          simp [Auth.State.next, Auth.next_ipv_future_body, hc, hip]
        rw [runA_cons_err hstep] at hr
        exact absurd hr (by simp)

/-- From the IPvFuture-number state, a successful parse appends to the host
exactly the characters before the first `]`. -/
theorem runA_fnum_host (cs : List Char) : ∀ (sh : Auth.Shared) (st' : Auth.State)
    (h : List Nat) (p : Option Nat), sh.host_is_reg_name = false →
    Auth.runA (.IpvFutureNumber sh) cs = .ok st' → Auth.State.finalize st' = .ok (h, p) →
    h = sh.host ++ (cs.takeWhile (fun c => c != ']')).map (fun c => c.toNat) := by
  induction cs with
  | nil =>
    intro sh st' h p hreg hr hfin
    simp only [Auth.runA, Except.ok.injEq] at hr
    subst hr
    exact absurd hfin (by simp [Auth.State.finalize])
  | cons c rest ih =>
    intro sh st' h p hreg hr hfin
    by_cases hdot : c = '.'
    · subst hdot
      have hstep : Auth.State.next (.IpvFutureNumber sh) '.' =
          .ok (.IpvFutureBody {sh with host := sh.host ++ ['.'.toNat]}) := by
        simp [Auth.State.next, Auth.next_ipv_future_number]
      rw [runA_cons_ok hstep] at hr
      have hh := runA_fbody_host rest {sh with host := sh.host ++ ['.'.toNat]} st' h p hreg hr hfin
      rw [hh]
      simp [List.takeWhile_cons]
    · by_cases hbr : c = ']'
      · subst hbr
        have hstep : Auth.State.next (.IpvFutureNumber sh) ']' = .error .TruncatedHost := by
          simp [Auth.State.next, Auth.next_ipv_future_number]
        rw [runA_cons_err hstep] at hr
        exact absurd hr (by simp)
      · by_cases hhex : HEXDIG c = true
        · have hstep : Auth.State.next (.IpvFutureNumber sh) c =
              .ok (.IpvFutureNumber {sh with host := sh.host ++ [c.toNat]}) := by
            simp [Auth.State.next, Auth.next_ipv_future_number, hdot, hbr, hhex]
          rw [runA_cons_ok hstep] at hr
          have hh := ih {sh with host := sh.host ++ [c.toNat]} st' h p hreg hr hfin
          have hb : (c != ']') = true := by simpa using hbr
          rw [hh]
          simp [List.takeWhile_cons, hb]
        · have hstep : Auth.State.next (.IpvFutureNumber sh) c =
              .error (.InvalidCharacter .IpvFuture) := by
            simp [Auth.State.next, Auth.next_ipv_future_number, hdot, hbr, hhex]
          rw [runA_cons_err hstep] at hr
          exact absurd hr (by simp)

/-- When the authority machine finalizes successfully from a
registered-name state, the returned host is the ASCII-lowercased
accumulated host. -/
theorem finalize_reg_lower (st : Auth.State) (h : List Nat) (p : Option Nat)
    (hreg : st.sh.host_is_reg_name = true)
    (hfin : Auth.State.finalize st = .ok (h, p)) :
    h = st.sh.host.map Auth.asciiLower := by
  cases st <;> simp only [Auth.State.sh] at hreg ⊢ <;>
    simp only [Auth.State.finalize, hreg, if_true] at hfin <;>
    try exact absurd hfin (by simp)
  all_goals
    split at hfin
    · simp only [Except.ok.injEq, Prod.mk.injEq] at hfin
      exact hfin.1.symm
    · split at hfin
      · simp only [Except.ok.injEq, Prod.mk.injEq] at hfin
        exact hfin.1.symm
      · exact absurd hfin (by simp)

/-- Started in a registered-name state (`NotIpLiteral`, mid-percent-escape,
or `Port`) with the reg-name flag set, a successful parse returns a host
with no ASCII upper-case byte. -/
theorem runA_regname_noUpper (cs : List Char) : ∀ (st st' : Auth.State)
    (h : List Nat) (p : Option Nat),
    (∃ sh : Auth.Shared,
      (st = .NotIpLiteral sh ∨ st = .PercentEncodedCharacter sh ∨ st = .Port sh) ∧
      sh.host_is_reg_name = true) →
    Auth.runA st cs = .ok st' → Auth.State.finalize st' = .ok (h, p) →
    ∀ b ∈ h, ¬(65 ≤ b ∧ b ≤ 90) := by
  induction cs with
  | nil =>
    intro st st' h p hst hr hfin
    obtain ⟨sh, hdisj, hreg⟩ := hst
    simp only [Auth.runA, Except.ok.injEq] at hr
    subst hr
    rcases hdisj with h1 | h2 | h3
    · subst h1
      have hh := finalize_reg_lower (.NotIpLiteral sh) h p hreg hfin
      intro b hb
      rw [hh] at hb
      obtain ⟨x, _, hx⟩ := List.mem_map.mp hb
      rw [← hx]
      exact asciiLower_noUpper x
    · subst h2
      exact absurd hfin (by simp [Auth.State.finalize])
    · subst h3
      have hh := finalize_reg_lower (.Port sh) h p hreg hfin
      intro b hb
      rw [hh] at hb
      obtain ⟨x, _, hx⟩ := List.mem_map.mp hb
      rw [← hx]
      exact asciiLower_noUpper x
  | cons c rest ih =>
    intro st st' h p hst hr hfin
    obtain ⟨sh, hdisj, hreg⟩ := hst
    rcases hdisj with h1 | h2 | h3
    · subst h1
      by_cases hpc : c = '%'
      · subst hpc
        have hstep : Auth.State.next (.NotIpLiteral sh) '%' =
            .ok (.PercentEncodedCharacter sh) := by
          simp [Auth.State.next, Auth.next_not_ip_literal]
        rw [runA_cons_ok hstep] at hr
        exact ih _ st' h p ⟨sh, Or.inr (Or.inl rfl), hreg⟩ hr hfin
      · by_cases hco : c = ':'
        · subst hco
          have hstep : Auth.State.next (.NotIpLiteral sh) ':' = .ok (.Port sh) := by
            simp [Auth.State.next, Auth.next_not_ip_literal]
          rw [runA_cons_ok hstep] at hr
          exact ih _ st' h p ⟨sh, Or.inr (Or.inr rfl), hreg⟩ hr hfin
        · by_cases hrn : REG_NAME_NOT_PCT_ENCODED c = true
          · have hstep : Auth.State.next (.NotIpLiteral sh) c =
                .ok (.NotIpLiteral {sh with host := sh.host ++ [c.toNat]}) := by
              simp [Auth.State.next, Auth.next_not_ip_literal, hpc, hco, hrn]
            rw [runA_cons_ok hstep] at hr
            exact ih _ st' h p
              ⟨{sh with host := sh.host ++ [c.toNat]}, Or.inl rfl, hreg⟩ hr hfin
          · have hstep : Auth.State.next (.NotIpLiteral sh) c =
                .error (.InvalidCharacter .Host) := by
              simp [Auth.State.next, Auth.next_not_ip_literal, hpc, hco, hrn]
            rw [runA_cons_err hstep] at hr
            exact absurd hr (by simp)
    · subst h2
      rcases hp : sh.pec_decoder.next c with ⟨dec', r⟩
      cases r with
      | error e =>
        have hstep : Auth.State.next (.PercentEncodedCharacter sh) c = .error e := by
          simp [Auth.State.next, Auth.next_percent_encoded_character, hp]
        rw [runA_cons_err hstep] at hr
        exact absurd hr (by simp)
      | ok o =>
        cases o with
        | some b =>
          have hstep : Auth.State.next (.PercentEncodedCharacter sh) c =
              .ok (.NotIpLiteral {sh with host := sh.host ++ [b], pec_decoder := dec'}) := by
            simp [Auth.State.next, Auth.next_percent_encoded_character, hp]
          rw [runA_cons_ok hstep] at hr
          exact ih _ st' h p
            ⟨{sh with host := sh.host ++ [b], pec_decoder := dec'}, Or.inl rfl, hreg⟩ hr hfin
        | none =>
          have hstep : Auth.State.next (.PercentEncodedCharacter sh) c =
              .ok (.PercentEncodedCharacter {sh with pec_decoder := dec'}) := by
            simp [Auth.State.next, Auth.next_percent_encoded_character, hp]
          rw [runA_cons_ok hstep] at hr
          exact ih _ st' h p
            ⟨{sh with pec_decoder := dec'}, Or.inr (Or.inl rfl), hreg⟩ hr hfin
    · subst h3
      have hstep : Auth.State.next (.Port sh) c =
          .ok (.Port {sh with port_string := sh.port_string ++ [c]}) := rfl
      rw [runA_cons_ok hstep] at hr
      exact ih _ st' h p
        ⟨{sh with port_string := sh.port_string ++ [c]}, Or.inr (Or.inr rfl), hreg⟩ hr hfin

/-- Splitting a successful scan-then-finalize into its two stages. -/
theorem runA_bind_elim (st : Auth.State) (cs : List Char) (h : List Nat) (p : Option Nat)
    (hpp : (Auth.runA st cs).bind Auth.State.finalize = .ok (h, p)) :
    ∃ stf, Auth.runA st cs = .ok stf ∧ Auth.State.finalize stf = .ok (h, p) := by
  cases hrun : Auth.runA st cs with
  | error e =>
    rw [hrun] at hpp
    exact absurd hpp (by simp [Except.bind])
  | ok stf =>
    rw [hrun] at hpp
    exact ⟨stf, rfl, by simpa [Except.bind] using hpp⟩

/-- Claim C6: registered-name hosts are ASCII-lowercased in the returned
authority — `"EXAMPLE.com"` yields host bytes `"example.com"`, and more
generally no successfully parsed non-literal host contains an upper-case
byte — while IP-literal hosts are returned byte-for-byte as the text between
the opening `[` (after the sniffed `v` for IPvFuture) and the first `]`,
e.g. `"[::1]"` yields host bytes `"::1"`. -/
theorem claim_C6 :
    Authority.parse ("EXAMPLE.com".toList) =
      .ok ⟨none, ("example.com".toList).map (fun c => c.toNat), none⟩ ∧
    Authority.parse ("[::1]".toList) =
      .ok ⟨none, ("::1".toList).map (fun c => c.toNat), none⟩ ∧
    (∀ (rest : List Char) (h : List Nat) (p : Option Nat),
      Auth.parse_host_port ('[' :: rest) = .ok (h, p) →
      h = (rest.takeWhile (fun c => c != ']')).map (fun c => c.toNat)) ∧
    (∀ (hps : List Char) (h : List Nat) (p : Option Nat),
      hps.head? ≠ some '[' → Auth.parse_host_port hps = .ok (h, p) →
      ∀ b ∈ h, ¬(65 ≤ b ∧ b ≤ 90)) := by
  refine ⟨by decide, by decide, ?_, ?_⟩
  · intro rest h p hpp
    cases rest with
    | nil =>
      have hnew : Auth.State.new ['['] = (.Ipv6Address Auth.emptyShared, []) := rfl
      unfold Auth.parse_host_port at hpp
      rw [hnew] at hpp
      obtain ⟨stf, hrun, hfin⟩ := runA_bind_elim _ _ _ _ hpp
      simp only [Auth.runA, Except.ok.injEq] at hrun
      subst hrun
      exact absurd hfin (by simp [Auth.State.finalize])
    | cons c2 rest2 =>
      by_cases hv : c2 = 'v'
      · subst hv
        have hnew : Auth.State.new ('[' :: 'v' :: rest2) =
            (.IpvFutureNumber {Auth.emptyShared with host := ['v'.toNat]}, rest2) := by
          simp [Auth.State.new]
        unfold Auth.parse_host_port at hpp
        rw [hnew] at hpp
        obtain ⟨stf, hrun, hfin⟩ := runA_bind_elim _ _ _ _ hpp
        have hh := runA_fnum_host rest2 {Auth.emptyShared with host := ['v'.toNat]}
          stf h p rfl hrun hfin
        rw [hh]
        simp [List.takeWhile_cons, Auth.emptyShared]
      · have hnew : Auth.State.new ('[' :: c2 :: rest2) =
            (.Ipv6Address Auth.emptyShared, c2 :: rest2) := by
          simp [Auth.State.new, hv]
        unfold Auth.parse_host_port at hpp
        rw [hnew] at hpp
        obtain ⟨stf, hrun, hfin⟩ := runA_bind_elim _ _ _ _ hpp
        have hh := runA_ipv6_host (c2 :: rest2) Auth.emptyShared stf h p rfl hrun hfin
        simpa [Auth.emptyShared] using hh
  · intro hps h p hhead hpp
    cases hps with
    | nil =>
      have hnew : Auth.State.new [] =
          (.NotIpLiteral {Auth.emptyShared with host_is_reg_name := true}, []) := rfl
      unfold Auth.parse_host_port at hpp
      rw [hnew] at hpp
      obtain ⟨stf, hrun, hfin⟩ := runA_bind_elim _ _ _ _ hpp
      exact runA_regname_noUpper [] _ stf h p ⟨_, Or.inl rfl, rfl⟩ hrun hfin
    | cons c rest =>
      have hc : c ≠ '[' := by
        intro hcc
        subst hcc
        exact hhead rfl
      have hnew : Auth.State.new (c :: rest) =
          (.NotIpLiteral {Auth.emptyShared with host_is_reg_name := true}, c :: rest) := by
        simp [Auth.State.new, hc]
      unfold Auth.parse_host_port at hpp
      rw [hnew] at hpp
      obtain ⟨stf, hrun, hfin⟩ := runA_bind_elim _ _ _ _ hpp
      exact runA_regname_noUpper (c :: rest) _ stf h p ⟨_, Or.inl rfl, rfl⟩ hrun hfin

/-- Witness for claim C6 at the IP-literal `"[::1]"`. -/
theorem claim_C6_witness :
    Auth.parse_host_port ('[' :: ("::1]".toList)) =
      .ok (("::1".toList).map (fun c => c.toNat), none) ∧
    ("::1".toList).map (fun c => c.toNat) =
      (("::1]".toList).takeWhile (fun c => c != ']')).map (fun c => c.toNat) := by
  refine ⟨by decide, ?_⟩
  exact claim_C6.2.2.1 ("::1]".toList) (("::1".toList).map (fun c => c.toNat)) none (by decide)

end InkUri
